import Mathlib

/-!
Verification of the material-mapping synthesizer of
`rust-godot-image-to-material-converter` (file `src/material/src/lib.rs`).

The Rust code is shallowly embedded: paths (`std::path::PathBuf`) are modelled
as a directory part plus a final component (the code only ever inspects or
rewrites the final component), strings as `List Char`, the filesystem as an
existence predicate indexed by the poll-iteration number together with a
content function, and the thread-local RNG (`Alphanumeric.sample_string`) as
an infinite character stream `Nat → Char` threaded by position.  Rust panics
(`Option::unwrap` on `None`) are modelled as `Except` errors, and the two
`Result::Err` strings of `generate` as dedicated error constructors.
-/

deriving instance DecidableEq for Except

namespace GodotMat

/-- A file path: opaque directory part plus the final component
(`PathBuf::file_name`).  The Rust code manipulates only the final component
(`extension`, `with_extension`, `file_name`), so this split is lossless for
the embedded functions. -/
structure RPath where
  dir : List Char
  name : List Char
  deriving DecidableEq, Repr

/-- Predicate `startsWithL needle s` : does `s` start with `needle`? -/
def startsWithL : List Char → List Char → Bool
  | [], _ => true
  | _ :: _, [] => false
  | a :: as, b :: bs => a == b && startsWithL as bs

/-- Substring containment, as Rust `str::contains` with a literal pattern. -/
def containsL : List Char → List Char → Bool
  | [], needle => startsWithL needle []
  | c :: t, needle => startsWithL needle (c :: t) || containsL t needle

/-- Split a file name at its last dot: `some (before, after)`, or `none` when
there is no dot, the only dot is the leading character, or the name is `..` —
exactly `std::path` `split_file_at_dot`. -/
def revSplitDotAux : List Char → List Char → Option (List Char × List Char)
  | _, [] => none
  | acc, c :: rest =>
    if c = '.' then
      if rest = [] then none else some (rest.reverse, acc)
    else revSplitDotAux (c :: acc) rest

/-- See `revSplitDotAux`; operates on the (non-reversed) file name. -/
def lastDotSplit (nm : List Char) : Option (List Char × List Char) :=
  if nm = ['.', '.'] then none else revSplitDotAux [] nm.reverse

/-- Rust `PathBuf::extension`: the part of the final component after its last dot. -/
def extensionOf (p : RPath) : Option (List Char) :=
  (lastDotSplit p.name).map Prod.snd

/-- Rust `PathBuf::file_stem`: the final component up to its last dot. -/
def fileStem (p : RPath) : List Char :=
  match lastDotSplit p.name with
  | some pr => pr.1
  | none => p.name

/-- Rust `PathBuf::with_extension`: replace the extension of the final component. -/
def withExtension (p : RPath) (e : List Char) : RPath :=
  ⟨p.dir, fileStem p ++ (if e = [] then [] else '.' :: e)⟩

/-- The sidecar-path derivation of `scan_for_import_files` (lib.rs:100-101):
`f.with_extension(format!("{}.import", f.extension().unwrap()))`.
`none` models the `unwrap` panic on an extension-less candidate. -/
def deriveImportPath (p : RPath) : Option RPath :=
  (extensionOf p).map (fun e => withExtension p (e ++ ".import".toList))

/-- The supported material property roles (lib.rs:12-19). -/
inductive GodotMaterialProperty
  | AlbedoTexture
  | NormalTexture
  | HeightTexture
  | RoughnessTexture
  | MetallicTexture
  | AmbientOcclusionTexture
  deriving DecidableEq, Repr

/-- Rust `get_godot_property` (lib.rs:265-293): ordered case-sensitive substring
tests against the file name of the given path. -/
def get_godot_property (filename : List Char) : Option GodotMaterialProperty :=
  if containsL filename ("albedo".toList) then some .AlbedoTexture
  else if containsL filename ("normal".toList) then some .NormalTexture
  else if containsL filename ("height".toList) then some .HeightTexture
  else if containsL filename ("roughness".toList) then some .RoughnessTexture
  else if containsL filename ("metallic".toList) then some .MetallicTexture
  else if containsL filename ("_ao".toList) then some .AmbientOcclusionTexture
  else none

/-- Regex word character (`\w`), for the `\b` boundary of the two patterns
(ASCII fragment, which covers all characters the patterns can abut). -/
def isWordChar (c : Char) : Bool := c.isAlphanum || c == '_'

/-- Strip `pre` from the front of `s`, if it is a prefix. -/
def stripFrontL : List Char → List Char → Option (List Char)
  | [], s => some s
  | _ :: _, [] => none
  | a :: as, b :: bs => if a = b then stripFrontL as bs else none

/-- Try to match `lit ++ ([^"]+) ++ '"'` at the very start of `s`, returning
the capture (the greedy non-quote run, which must be non-empty and followed
by a closing quote). -/
def tryCaptureAt (lit : List Char) (s : List Char) : Option (List Char) :=
  match stripFrontL lit s with
  | none => none
  | some rest =>
    let run := rest.takeWhile (fun c => c != '"')
    if run = [] then none
    else
      match rest.drop run.length with
      | c :: _ => if c = '"' then some run else none
      | [] => none

/-- Leftmost match of `\b lit ([^"]+) "` in a line: scan start positions left
to right; `prev` is the character before the current position (`none` at the
start of the line), used for the word-boundary test — the literal starts with
a word character, so `\b` holds iff `prev` is absent or not a word character. -/
def scanCapture (lit : List Char) : Option Char → List Char → Option (List Char)
  | _, [] => none
  | prev, c :: rest =>
    match (if (match prev with | none => true | some p => !isWordChar p) then
             tryCaptureAt lit (c :: rest) else none) with
    | some cap => some cap
    | none => scanCapture lit (some c) rest

/-- Capture of `uid_regex` = `\buid="uid://([^"]+)"` on one line (lib.rs:141). -/
def matchUid (line : List Char) : Option (List Char) :=
  scanCapture ("uid=\"uid://".toList) none line

/-- Capture of `sf_regex` = `\bsource_file="(res://[^"]+)"` on one line
(lib.rs:142).  The capture group starts at `res://`, so the captured value is
`res://` followed by the greedy non-quote run. -/
def matchSf (line : List Char) : Option (List Char) :=
  (scanCapture ("source_file=\"res://".toList) none line).map
    (fun run => "res://".toList ++ run)

/-- The per-file line scan of `compile_material_mapping` (lib.rs:155-169):
visit every line, a later match overwriting an earlier one, returning the
final `(uid, source_file)` pair of options. -/
def extractFields (ls : List (List Char)) : Option (List Char) × Option (List Char) :=
  ls.foldl
    (fun acc line =>
      (match matchUid line with
       | some v => some v
       | none => acc.1,
       match matchSf line with
       | some v => some v
       | none => acc.2))
    (none, none)

/-- One resolved mapping record (lib.rs:24-29). -/
structure GodotMaterialMapping where
  uid : List Char
  short_uid : List Char
  source_file : List Char
  property : GodotMaterialProperty
  deriving DecidableEq, Repr

/-- Rust `generate_godot_uid` (lib.rs:296-298): sample `len` characters from the
RNG stream starting at `pos` and lowercase them; returns the token and the
advanced stream position. -/
def generate_godot_uid (rng : Nat → Char) (pos len : Nat) : List Char × Nat :=
  (((List.range len).map (fun i => rng (pos + i))).map Char.toLower, pos + len)

/-- Decimal digit character. -/
def digitChar (n : Nat) : Char := Char.ofNat (48 + n)

/-- Fuel-driven decimal rendering (the fuel is unfolded structurally so that
concrete instances evaluate inside the kernel). -/
def natDigitsAux : Nat → Nat → List Char
  | 0, _ => []
  | fuel + 1, n =>
    if n < 10 then [digitChar n]
    else natDigitsAux fuel (n / 10) ++ [digitChar (n % 10)]

/-- Decimal rendering of a natural number, as Rust `format!("{}", n)`
renders a `usize`. -/
def natDigits (n : Nat) : List Char := natDigitsAux (n + 1) n

/-- The accumulation loop of `compile_material_mapping` (lib.rs:144-182): per file,
run the line scan, classify the file name, and push a record iff both `uid`
and `source_file` resolved; the `short_uid` of the record is
`format!("{}_{}", uid_mapping.len() + 1, generate_godot_uid(5))`.
`.error ()` models the `property.unwrap()` panic (lib.rs:176) that fires when
both fields resolved but no role matched. -/
def compile_aux (contents : RPath → List (List Char)) (rng : Nat → Char) :
    List RPath → List GodotMaterialMapping → Nat →
      Except Unit (List GodotMaterialMapping × Nat)
  | [], acc, pos => .ok (acc, pos)
  | f :: rest, acc, pos =>
    match extractFields (contents f) with
    | (some uidV, some sfV) =>
      match get_godot_property f.name with
      | none => .error ()
      | some prop =>
        let tk := generate_godot_uid rng pos 5
        compile_aux contents rng rest
          (acc ++ [⟨uidV, natDigits (acc.length + 1) ++ '_' :: tk.1, sfV, prop⟩]) tk.2
    | _ => compile_aux contents rng rest acc pos

/-- Rust `compile_material_mapping` (lib.rs:137-185). -/
def compile_material_mapping (contents : RPath → List (List Char)) (rng : Nat → Char)
    (files_found : List RPath) (pos : Nat) :
    Except Unit (List GodotMaterialMapping × Nat) :=
  compile_aux contents rng files_found [] pos

/-- One pass of the inner `for` loop of `scan_for_import_files`
(lib.rs:99-105): derive the sidecar path of each candidate and keep those that
exist.  `.error ()` models the `f.extension().unwrap()` panic on an
extension-less candidate. -/
def scanOnce (fsEx : RPath → Bool) : List RPath → Except Unit (List RPath)
  | [] => .ok []
  | f :: rest =>
    match deriveImportPath f with
    | none => .error ()
    | some ip =>
      match scanOnce fsEx rest with
      | .error e => .error e
      | .ok found => .ok (if fsEx ip then ip :: found else found)

/-- Outcome of the poll loop: the sidecars found in the final iteration, the
number of loop iterations performed, and the number of one-second sleeps. -/
structure ScanResult where
  found : List RPath
  iterations : Nat
  sleeps : Nat
  deriving DecidableEq, Repr

/-- The poll loop of `scan_for_import_files` (lib.rs:94-130).  `fs i p` is
whether path `p` exists during iteration `i` (the filesystem is changed
concurrently by the editor).  `remaining` is `100 - iters`, so the Rust break
test `iters + 1 >= max_iters` is `remaining = 1`, i.e. `remaining' = 0` under
the pattern `remaining' + 1`; the loop sleeps exactly when the iteration found
fewer sidecars than candidates.  The zero-fuel branch is unreachable from
`scan_for_import_files` (which starts `remaining` at 100 ≥ 1). -/
def scanLoop (fs : Nat → RPath → Bool) (files : List RPath) :
    Nat → Nat → Nat → Except Unit ScanResult
  | 0, _, _ => .error ()
  | remaining + 1, iters, sleeps =>
    match scanOnce (fs iters) files with
    | .error e => .error e
    | .ok found =>
      let sleeps' := if found.length < files.length then sleeps + 1 else sleeps
      if remaining = 0 || found.length == files.length then
        .ok ⟨found, iters + 1, sleeps'⟩
      else
        scanLoop fs files remaining (iters + 1) sleeps'

/-- Rust `max_iters` (lib.rs:92). -/
def max_iters : Nat := 100

/-- Rust `scan_for_import_files` (lib.rs:89-133). -/
def scan_for_import_files (fs : Nat → RPath → Bool) (files : List RPath) :
    Except Unit ScanResult :=
  scanLoop fs files max_iters 0 0

/-- Rust `generate_header` (lib.rs:188-194). -/
def generate_header (rng : Nat → Char) (pos : Nat) : List Char × Nat :=
  let tk := generate_godot_uid rng pos 12
  ("[gd_resource type=\"StandardMaterial3D\" format=3 uid=\"uid://".toList
     ++ tk.1 ++ "\"]\n\n".toList, tk.2)

/-- One `ext_resource` entry of `generate_ext_resources` (lib.rs:201-206),
including its trailing newline. -/
def ext_resource_entry (res : GodotMaterialMapping) : List Char :=
  "[ext_resource type=\"Texture2D\" path=\"".toList ++ res.source_file
    ++ "\" uid=\"uid://".toList ++ res.uid
    ++ "\" id=\"".toList ++ res.short_uid ++ "\"]\n".toList

/-- Rust `generate_ext_resources` (lib.rs:199-208). -/
def generate_ext_resources (mapping : List GodotMaterialMapping) : List Char :=
  mapping.flatMap ext_resource_entry

/-- The text appended for one record by the `match` of `generate_resources`
(lib.rs:215-258); every line is emitted with a leading newline. -/
def resource_property_text (prop : GodotMaterialMapping) : List Char :=
  match prop.property with
  | .AlbedoTexture =>
      "\nalbedo_texture = ExtResource(\"".toList ++ prop.short_uid ++ "\")".toList
  | .NormalTexture =>
      "\nnormal_enabled = true".toList
        ++ ("\nnormal_texture = ExtResource(\"".toList ++ prop.short_uid ++ "\")".toList)
  | .HeightTexture =>
      "\nheightmap_enabled = true".toList
        ++ ("\nheightmap_texture = ExtResource(\"".toList ++ prop.short_uid ++ "\")".toList)
  | .RoughnessTexture =>
      "\nroughness_texture = ExtResource(\"".toList ++ prop.short_uid ++ "\")".toList
  | .MetallicTexture =>
      "\nmetallic = 1.0".toList
        ++ ("\nmetallic_texture = ExtResource(\"".toList ++ prop.short_uid ++ "\")".toList)
  | .AmbientOcclusionTexture =>
      "\nao_enabled = true".toList
        ++ ("\nao_texture = ExtResource(\"".toList ++ prop.short_uid ++ "\")".toList)

/-- Rust `generate_resources` (lib.rs:212-259). -/
def generate_resources (mapping : List GodotMaterialMapping) : List Char :=
  "\n[resource]".toList ++ mapping.flatMap resource_property_text

/-- Rust `generate_material` (lib.rs:70-78): header, then ext_resources, then the
resource block, accumulated into one string. -/
def generate_material (rng : Nat → Char) (pos : Nat)
    (mapping : List GodotMaterialMapping) : List Char :=
  (generate_header rng pos).1 ++ generate_ext_resources mapping
    ++ generate_resources mapping

/-- Run-level outcomes of `generate`: the two `Err` strings of lib.rs:49 and
lib.rs:59, and the two panics reachable from it. -/
inductive RunError
  | panicNoExtension
  | panicNoProperty
  | incompleteImportSet
  | incompleteMapping
  deriving DecidableEq, Repr

/-- Rust `generate` (lib.rs:42-64): scan for sidecars, abort with
`incompleteImportSet` (the "Will not wait any longer" error) when fewer were
found than candidates, compile the mapping, abort with `incompleteMapping`
(the "UID mapping does not match" error) when the mapping is shorter, else
return the document text.  The RNG stream is consumed by the compiler first
(5-char tokens) and then by the header (12-char token), as the Rust
`thread_rng` call order dictates. -/
def generate (fs : Nat → RPath → Bool) (contents : RPath → List (List Char))
    (rng : Nat → Char) (files : List RPath) : Except RunError (List Char) :=
  match scan_for_import_files fs files with
  | .error _ => .error .panicNoExtension
  | .ok r =>
    if r.found.length < files.length then .error .incompleteImportSet
    else
      match compile_material_mapping contents rng r.found 0 with
      | .error _ => .error .panicNoProperty
      | .ok m =>
        if m.1.length ≠ r.found.length then .error .incompleteMapping
        else .ok (generate_material rng m.2 m.1)

/-! ### Specification-side definitions

The following definitions are transcribed from the wording of the
specification (not from the source); the theorems below compare the embedded
source functions against them. -/

/-- Role rules in the priority order stated by the spec:
albedo, normal, height, roughness, metallic, `_ao`. -/
def roleRulesSpec : List (List Char × GodotMaterialProperty) :=
  [("albedo".toList, .AlbedoTexture), ("normal".toList, .NormalTexture),
   ("height".toList, .HeightTexture), ("roughness".toList, .RoughnessTexture),
   ("metallic".toList, .MetallicTexture), ("_ao".toList, .AmbientOcclusionTexture)]

/-- Reference role classifier, modelled from the wording of the spec: ordered
case-sensitive substring tests, first match wins, total on filenames. -/
def role_classifier_spec (filename : List Char) : Option GodotMaterialProperty :=
  roleRulesSpec.findSome? (fun rule => if containsL filename rule.1 then some rule.2 else none)

/-- Last element of a list of captures, defaulting to `d` when none exists
(used to phrase the last-match-wins contract of the extractor). -/
def lastOr (xs : List (List Char)) (d : Option (List Char)) : Option (List Char) :=
  match xs.getLast? with
  | some v => some v
  | none => d

/-- Value of a decimal digit string (used to prove `natDigits` injective). -/
def evalDigits (ds : List Char) : Nat := ds.foldl (fun a c => a * 10 + (c.toNat - 48)) 0

/-- A sidecar file yields both fields (the push condition of the compiler,
lib.rs:174). -/
def yieldsBoth (contents : RPath → List (List Char)) (f : RPath) : Bool :=
  (extractFields (contents f)).1.isSome && (extractFields (contents f)).2.isSome

/-- Shape invariant of the compiled mapping list: the record at 0-based index
`i` carries `short_uid` of the form decimal ordinal `i + 1`, an underscore,
and a 5-character token. -/
def shortUidShape (m : List GodotMaterialMapping) : Prop :=
  ∀ i (h : i < m.length), ∃ t : List Char, t.length = 5 ∧
    (m.get ⟨i, h⟩).short_uid = natDigits (i + 1) ++ '_' :: t

/-- Number of sidecars the inner scan of iteration `i` finds (0 when the scan
panics, which the theorems below exclude by hypothesis). -/
def foundAt (fs : Nat → RPath → Bool) (files : List RPath) (i : Nat) : Nat :=
  match scanOnce (fs i) files with
  | .ok l => l.length
  | .error _ => 0

/-- Join lines with a single newline, no trailing newline (the document of
the spec, described line by line). -/
def joinNL : List (List Char) → List Char
  | [] => []
  | [l] => l
  | l :: l2 :: ls => l ++ '\n' :: joinNL (l2 :: ls)

/-- Header line of the document, as stated by the spec. -/
def header_line_spec (tok : List Char) : List Char :=
  "[gd_resource type=\"StandardMaterial3D\" format=3 uid=\"uid://".toList ++ tok ++ "\"]".toList

/-- One external-reference line of the document, as stated by the spec. -/
def ext_line_spec (res : GodotMaterialMapping) : List Char :=
  "[ext_resource type=\"Texture2D\" path=\"".toList ++ res.source_file
    ++ "\" uid=\"uid://".toList ++ res.uid
    ++ "\" id=\"".toList ++ res.short_uid ++ "\"]".toList

/-- Role-specific property lines of one record, per the table of the spec. -/
def prop_lines_spec (r : GodotMaterialMapping) : List (List Char) :=
  match r.property with
  | .AlbedoTexture =>
      [("albedo_texture = ExtResource(\"".toList ++ r.short_uid ++ "\")".toList)]
  | .NormalTexture =>
      [("normal_enabled = true".toList),
       ("normal_texture = ExtResource(\"".toList ++ r.short_uid ++ "\")".toList)]
  | .HeightTexture =>
      [("heightmap_enabled = true".toList),
       ("heightmap_texture = ExtResource(\"".toList ++ r.short_uid ++ "\")".toList)]
  | .RoughnessTexture =>
      [("roughness_texture = ExtResource(\"".toList ++ r.short_uid ++ "\")".toList)]
  | .MetallicTexture =>
      [("metallic = 1.0".toList),
       ("metallic_texture = ExtResource(\"".toList ++ r.short_uid ++ "\")".toList)]
  | .AmbientOcclusionTexture =>
      [("ao_enabled = true".toList),
       ("ao_texture = ExtResource(\"".toList ++ r.short_uid ++ "\")".toList)]

/-- The full document as a list of lines, per the spec: header line, blank
line, one ext_resource line per record, blank line, the resource tag, then
the role-specific property lines of each record in order. -/
def doc_lines_spec (tok : List Char) (mapping : List GodotMaterialMapping) : List (List Char) :=
  [header_line_spec tok, []] ++ mapping.map ext_line_spec
    ++ [[], ("[resource]".toList)] ++ mapping.flatMap prop_lines_spec

/-! ### Supporting lemmas -/

theorem classifier_eq (nm : List Char) : get_godot_property nm = role_classifier_spec nm := by
  simp only [get_godot_property, role_classifier_spec, roleRulesSpec, List.findSome?_cons]
  repeat' split <;> simp_all

-- C5 fold lemma experiment

theorem lastOr_none (xs : List (List Char)) : lastOr xs none = xs.getLast? := by
  unfold lastOr
  cases hx : xs.getLast? <;> simp

theorem lastOr_cons (v : List Char) (xs : List (List Char)) (d : Option (List Char)) :
    lastOr (v :: xs) d = lastOr xs (some v) := by
  cases xs with
  | nil => simp [lastOr]
  | cons y t =>
    unfold lastOr
    cases hx : (y :: t).getLast? with
    | none => exact absurd hx (by simp)
    | some w => simp [hx]

theorem extract_fold (ls : List (List Char)) :
    ∀ a b, ls.foldl
      (fun acc line =>
        (match matchUid line with
         | some v => some v
         | none => acc.1,
         match matchSf line with
         | some v => some v
         | none => acc.2)) (a, b)
      = (lastOr (ls.filterMap matchUid) a, lastOr (ls.filterMap matchSf) b) := by
  induction ls with
  | nil => intro a b; simp [lastOr]
  | cons l t ih =>
    intro a b
    simp only [List.foldl_cons, List.filterMap_cons]
    cases hu : matchUid l <;> cases hs : matchSf l <;>
      simp [ih, lastOr_cons]

theorem extractFields_eq (ls : List (List Char)) :
    extractFields ls = ((ls.filterMap matchUid).getLast?, (ls.filterMap matchSf).getLast?) := by
  have h := extract_fold ls none none
  simp only [extractFields, h, lastOr_none]

theorem startsWithL_append (pre x : List Char) : startsWithL pre (pre ++ x) = true := by
  induction pre with
  | nil => rfl
  | cons c t ih => simp [startsWithL, ih]

theorem matchSf_res (line v : List Char) (h : matchSf line = some v) :
    startsWithL ("res://".toList) v = true := by
  unfold matchSf at h
  cases hs : scanCapture ("source_file=\"res://".toList) none line with
  | none => rw [hs] at h; simp at h
  | some run =>
    rw [hs] at h
    simp at h
    rw [← h]
    exact startsWithL_append _ _

theorem evalDigits_append_one (xs : List Char) (c : Char) :
    evalDigits (xs ++ [c]) = evalDigits xs * 10 + (c.toNat - 48) := by
  simp [evalDigits, List.foldl_append]

theorem digitChar_toNat (n : Nat) (h : n < 10) : (digitChar n).toNat = 48 + n := by
  interval_cases n <;> decide

theorem natDigitsAux_eval (fuel : Nat) : ∀ n, n < fuel → evalDigits (natDigitsAux fuel n) = n := by
  induction fuel with
  | zero => intro n h; omega
  | succ f ih =>
    intro n h
    by_cases h10 : n < 10
    · simp [natDigitsAux, h10, evalDigits, digitChar_toNat n h10]
    · have hd : n / 10 < f := by omega
      simp only [natDigitsAux, h10, if_false, evalDigits_append_one, ih (n / 10) hd]
      have : n % 10 < 10 := Nat.mod_lt _ (by omega)
      rw [digitChar_toNat _ this]
      omega

theorem natDigits_eval (n : Nat) : evalDigits (natDigits n) = n :=
  natDigitsAux_eval (n + 1) n (Nat.lt_succ_self n)

theorem natDigits_inj (a b : Nat) (h : natDigits a = natDigits b) : a = b := by
  have ha := natDigits_eval a
  have hb := natDigits_eval b
  rw [h] at ha
  omega

theorem natDigitsAux_digit (fuel : Nat) :
    ∀ n c, c ∈ natDigitsAux fuel n → c.isDigit = true := by
  induction fuel with
  | zero => intro n c h; simp [natDigitsAux] at h
  | succ f ih =>
    intro n c h
    by_cases h10 : n < 10
    · simp [natDigitsAux, h10] at h
      subst h
      have : n < 10 := h10
      interval_cases n <;> decide
    · simp only [natDigitsAux, h10, if_false, List.mem_append, List.mem_singleton] at h
      rcases h with h | h
      · exact ih _ _ h
      · subst h
        have : n % 10 < 10 := Nat.mod_lt _ (by omega)
        interval_cases hm : n % 10 <;> simp_all <;> decide

theorem natDigits_digit (n : Nat) (c : Char) (h : c ∈ natDigits n) : c.isDigit = true :=
  natDigitsAux_digit (n + 1) n c h

theorem digits_sep_inj (p : List Char) :
    ∀ q r s : List Char, (∀ c ∈ p, c.isDigit = true) → (∀ c ∈ q, c.isDigit = true) →
      p ++ '_' :: r = q ++ '_' :: s → p = q ∧ r = s := by
  induction p with
  | nil =>
    intro q r s _ hq h
    cases q with
    | nil => simpa using h
    | cons d t =>
      simp at h
      have := hq d (by simp)
      rw [← h.1] at this
      simp [Char.isDigit] at this
  | cons c pt ih =>
    intro q r s hp hq h
    cases q with
    | nil =>
      simp at h
      have := hp c (by simp)
      rw [h.1] at this
      simp [Char.isDigit] at this
    | cons d t =>
      simp at h
      obtain ⟨h1, h2⟩ := h
      obtain ⟨hpq, hrs⟩ := ih t r s (fun x hx => hp x (by simp [hx])) (fun x hx => hq x (by simp [hx])) h2
      subst h1 hpq hrs
      exact ⟨rfl, rfl⟩

theorem short_uid_ne (a b : Nat) (x y : List Char) (hab : a ≠ b) :
    natDigits a ++ '_' :: x ≠ natDigits b ++ '_' :: y := by
  intro h
  obtain ⟨h1, _⟩ := digits_sep_inj _ _ _ _ (natDigits_digit a) (natDigits_digit b) h
  exact hab (natDigits_inj a b h1)

theorem generate_godot_uid_len (rng : Nat → Char) (pos len : Nat) :
    (generate_godot_uid rng pos len).1.length = len := by
  simp [generate_godot_uid]

theorem compile_aux_ok (contents : RPath → List (List Char)) (rng : Nat → Char) :
    ∀ (files : List RPath) (acc : List GodotMaterialMapping) (pos : Nat),
      (∀ f ∈ files, yieldsBoth contents f = true → (get_godot_property f.name).isSome) →
      ∃ m pos', compile_aux contents rng files acc pos = .ok (m, pos') ∧
        m.length = acc.length + files.countP (yieldsBoth contents) := by
  intro files
  induction files with
  | nil => intro acc pos _; exact ⟨acc, pos, rfl, by simp⟩
  | cons f rest ih =>
    intro acc pos hnp
    have hyb : yieldsBoth contents f = ((extractFields (contents f)).1.isSome
        && (extractFields (contents f)).2.isSome) := rfl
    rcases he : extractFields (contents f) with ⟨u, s⟩
    cases u with
    | none =>
      obtain ⟨m, p', hm, hl⟩ := ih acc pos (fun g hg => hnp g (by simp [hg]))
      refine ⟨m, p', ?_, ?_⟩
      · simp only [compile_aux, he]; exact hm
      · rw [hl, List.countP_cons]
        simp [yieldsBoth, he]
    | some uv =>
      cases s with
      | none =>
        obtain ⟨m, p', hm, hl⟩ := ih acc pos (fun g hg => hnp g (by simp [hg]))
        refine ⟨m, p', ?_, ?_⟩
        · simp only [compile_aux, he]; exact hm
        · rw [hl, List.countP_cons]
          simp [yieldsBoth, he]
      | some sv =>
        have hb : yieldsBoth contents f = true := by simp [yieldsBoth, he]
        have hprop := hnp f (by simp) hb
        cases hp : get_godot_property f.name with
        | none => rw [hp] at hprop; simp at hprop
        | some pr =>
          obtain ⟨m, p', hm, hl⟩ :=
            ih (acc ++ [⟨uv, natDigits (acc.length + 1) ++ '_' :: (generate_godot_uid rng pos 5).1,
              sv, pr⟩]) (generate_godot_uid rng pos 5).2 (fun g hg => hnp g (by simp [hg]))
          refine ⟨m, p', ?_, ?_⟩
          · simp only [compile_aux, he, hp]
            exact hm
          · rw [hl, List.countP_cons]
            simp [hb, Nat.add_assoc, Nat.add_comm 1]

theorem compile_aux_shape (contents : RPath → List (List Char)) (rng : Nat → Char) :
    ∀ (files : List RPath) (acc : List GodotMaterialMapping) (pos : Nat)
      (m : List GodotMaterialMapping) (pos' : Nat),
      shortUidShape acc →
      compile_aux contents rng files acc pos = .ok (m, pos') →
      shortUidShape m := by
  intro files
  induction files with
  | nil =>
    intro acc pos m pos' hacc hok
    simp only [compile_aux] at hok
    cases hok
    exact hacc
  | cons f rest ih =>
    intro acc pos m pos' hacc hok
    rcases he : extractFields (contents f) with ⟨u, s⟩
    cases u with
    | none =>
      simp only [compile_aux, he] at hok
      exact ih acc pos m pos' hacc hok
    | some uv =>
      cases s with
      | none =>
        simp only [compile_aux, he] at hok
        exact ih acc pos m pos' hacc hok
      | some sv =>
        simp only [compile_aux, he] at hok
        cases hp : get_godot_property f.name with
        | none => rw [hp] at hok; simp at hok
        | some pr =>
          rw [hp] at hok
          refine ih _ _ m pos' ?_ hok
          intro i hi
          rw [List.length_append, List.length_singleton] at hi
          by_cases hlt : i < acc.length
          · obtain ⟨t, ht, hs⟩ := hacc i hlt
            refine ⟨t, ht, ?_⟩
            rw [← hs]
            congr 1
            exact (List.get_append_left _ _ _)
          · have hieq : i = acc.length := by omega
            subst hieq
            refine ⟨(generate_godot_uid rng pos 5).1, generate_godot_uid_len rng pos 5, ?_⟩
            have : (acc ++ [(⟨uv, natDigits (acc.length + 1) ++ '_' :: (generate_godot_uid rng pos 5).1,
                sv, pr⟩ : GodotMaterialMapping)]).get ⟨acc.length, by simp⟩ =
                ⟨uv, natDigits (acc.length + 1) ++ '_' :: (generate_godot_uid rng pos 5).1, sv, pr⟩ := by
              rw [List.get_append_right] <;> simp
            rw [this]

theorem shape_nodup (m : List GodotMaterialMapping) (hs : shortUidShape m) :
    (m.map GodotMaterialMapping.short_uid).Nodup := by
  rw [List.nodup_iff_injective_get]
  intro ⟨i, hi⟩ ⟨j, hj⟩ hij
  simp only [List.length_map] at hi hj
  simp only [List.get_map] at hij
  obtain ⟨t, ht, hst⟩ := hs i hi
  obtain ⟨u, hu, hsu⟩ := hs j hj
  by_contra hne
  have hij' : i ≠ j := by simpa using hne
  rw [hst, hsu] at hij
  exact short_uid_ne (i + 1) (j + 1) t u (by omega) hij

-- scan loop spec

theorem scanOnce_ok (fsEx : RPath → Bool) :
    ∀ files : List RPath, (∀ f ∈ files, (extensionOf f).isSome) →
      ∃ l, scanOnce fsEx files = .ok l ∧ l.length ≤ files.length := by
  intro files
  induction files with
  | nil => intro _; exact ⟨[], rfl, by simp⟩
  | cons f rest ih =>
    intro h
    have hf := h f (by simp)
    cases hd : deriveImportPath f with
    | none =>
      unfold deriveImportPath at hd
      cases he : extensionOf f <;> simp [he] at hd hf
    | some ip =>
      obtain ⟨l, hl, hlen⟩ := ih (fun g hg => h g (by simp [hg]))
      refine ⟨if fsEx ip then ip :: l else l, ?_, ?_⟩
      · simp only [scanOnce, hd, hl]
      · by_cases hex : fsEx ip <;> simp [hex] <;> omega

theorem scanOnce_error (fsEx : RPath → Bool) :
    ∀ files : List RPath, (∃ f ∈ files, extensionOf f = none) →
      scanOnce fsEx files = .error () := by
  intro files
  induction files with
  | nil => intro ⟨f, hf, _⟩; simp at hf
  | cons f rest ih =>
    intro ⟨g, hg, hge⟩
    rcases List.mem_cons.mp hg with hgf | hgr
    · subst hgf
      have hd : deriveImportPath g = none := by simp [deriveImportPath, hge]
      simp only [scanOnce, hd]
    · cases hd : deriveImportPath f with
      | none => simp only [scanOnce, hd]
      | some ip =>
        have := ih ⟨g, hgr, hge⟩
        simp only [scanOnce, hd, this]

theorem scanLoop_spec (fs : Nat → RPath → Bool) (files : List RPath)
    (hext : ∀ f ∈ files, (extensionOf f).isSome) :
    ∀ (remaining iters sleeps : Nat), 1 ≤ remaining →
      ∃ r : ScanResult, scanLoop fs files remaining iters sleeps = .ok r ∧
        iters + 1 ≤ r.iterations ∧ r.iterations ≤ iters + remaining ∧
        (∀ j, iters ≤ j → j + 1 < r.iterations → foundAt fs files j ≠ files.length) ∧
        (foundAt fs files (r.iterations - 1) = files.length ∨ r.iterations = iters + remaining) ∧
        r.found.length = foundAt fs files (r.iterations - 1) := by
  intro remaining
  induction remaining with
  | zero => intro iters sleeps h; omega
  | succ rem ih =>
    intro iters sleeps _
    obtain ⟨l, hl, _⟩ := scanOnce_ok (fs iters) files hext
    have hfa : foundAt fs files iters = l.length := by simp [foundAt, hl]
    by_cases hstop : rem = 0 ∨ l.length = files.length
    · have hcond : (rem = 0 || l.length == files.length) = true := by
        rcases hstop with h | h <;> simp [h]
      refine ⟨⟨l, iters + 1, if l.length < files.length then sleeps + 1 else sleeps⟩, ?_, ?_, ?_, ?_, ?_, ?_⟩
      · simp only [scanLoop, hl, hcond, if_true]
      · show iters + 1 ≤ iters + 1
        omega
      · show iters + 1 ≤ iters + (rem + 1)
        omega
      · intro j h1 h2
        exfalso
        have h2' : j + 1 < iters + 1 := h2
        omega
      · show foundAt fs files (iters + 1 - 1) = files.length ∨ iters + 1 = iters + (rem + 1)
        rw [Nat.add_sub_cancel, hfa]
        rcases hstop with h | h
        · right; omega
        · left; exact h
      · show l.length = foundAt fs files (iters + 1 - 1)
        rw [Nat.add_sub_cancel, hfa]
    · push_neg at hstop
      obtain ⟨hrem, hneq⟩ := hstop
      have hcond : (rem = 0 || l.length == files.length) = false := by
        simp [hrem, hneq]
      obtain ⟨r, hr, h1, h2, h3, h4, h5⟩ :=
        ih (iters + 1) (if l.length < files.length then sleeps + 1 else sleeps) (by omega)
      refine ⟨r, ?_, by omega, by omega, ?_, ?_, h5⟩
      · simp only [scanLoop, hl, hcond, if_false]
        exact hr
      · intro j hj1 hj2
        by_cases hje : j = iters
        · subst hje; rw [hfa]; exact hneq
        · exact h3 j (by omega) hj2
      · rcases h4 with h | h
        · left; exact h
        · right; omega

theorem scanLoop_error_first (fs : Nat → RPath → Bool) (files : List RPath)
    (iters sleeps : Nat) (h : scanOnce (fs iters) files = .error ()) :
    ∀ rem, 1 ≤ rem → scanLoop fs files rem iters sleeps = .error () := by
  intro rem hrem
  cases rem with
  | zero => omega
  | succ r => simp [scanLoop, h]

theorem joinNL_cons (x : List Char) (ls : List (List Char)) :
    joinNL (x :: ls) = x ++ ls.flatMap (fun l => '\n' :: l) := by
  induction ls generalizing x with
  | nil => simp [joinNL]
  | cons y t ih => simp [joinNL, ih y]

theorem resource_property_text_eq (r : GodotMaterialMapping) :
    resource_property_text r = (prop_lines_spec r).flatMap (fun l => '\n' :: l) := by
  rcases r with ⟨u, sid, sf, prop⟩
  cases prop <;>
    simp only [resource_property_text, prop_lines_spec, List.flatMap_cons, List.flatMap_nil,
      List.append_nil, List.cons_append, List.append_assoc] <;> rfl

theorem flatMap_prop_eq (mapping : List GodotMaterialMapping) :
    mapping.flatMap resource_property_text
      = (mapping.flatMap prop_lines_spec).flatMap (fun l => '\n' :: l) := by
  induction mapping with
  | nil => rfl
  | cons r t ih => simp [List.flatMap_cons, resource_property_text_eq, ih]

theorem ext_entry_eq (r : GodotMaterialMapping) :
    ext_resource_entry r = ext_line_spec r ++ ['\n'] := by
  rcases r with ⟨u, sid, sf, prop⟩
  simp [ext_resource_entry, ext_line_spec]

theorem ext_shift (mapping : List GodotMaterialMapping) (X : List Char) :
    (mapping.map ext_line_spec).flatMap (fun l => '\n' :: l) ++ '\n' :: X
      = '\n' :: (mapping.flatMap ext_resource_entry ++ X) := by
  induction mapping with
  | nil => rfl
  | cons r t ih =>
    simp only [List.map_cons, List.flatMap_cons, ext_entry_eq]
    rw [List.append_assoc, ih]
    simp

theorem generate_material_eq_spec (rng : Nat → Char) (pos : Nat)
    (mapping : List GodotMaterialMapping) :
    generate_material rng pos mapping
      = joinNL (doc_lines_spec ((generate_godot_uid rng pos 12).1) mapping) := by
  have hdoc : doc_lines_spec ((generate_godot_uid rng pos 12).1) mapping
      = header_line_spec ((generate_godot_uid rng pos 12).1)
        :: [] :: (mapping.map ext_line_spec
          ++ [] :: ("[resource]".toList) :: mapping.flatMap prop_lines_spec) := by
    simp [doc_lines_spec]
  rw [hdoc, joinNL_cons]
  simp only [List.flatMap_cons, List.flatMap_append]
  simp only [List.singleton_append, List.cons_append, List.nil_append]
  rw [ext_shift mapping ('\n' :: ("[resource]".toList
    ++ (mapping.flatMap prop_lines_spec).flatMap (fun l => '\n' :: l)))]
  simp only [generate_material, generate_header, generate_ext_resources, generate_resources,
    flatMap_prop_eq, header_line_spec, List.append_assoc, List.cons_append, List.nil_append]
  rfl

-- C10 counterexample check: code emits TWO blank lines

theorem revSplitDotAux_struct :
    ∀ (l acc b a : List Char), revSplitDotAux acc l = some (b, a) →
      ∃ a0 : List Char, a = a0 ++ acc ∧ l = a0.reverse ++ '.' :: b.reverse := by
  intro l
  induction l with
  | nil => intro acc b a h; simp [revSplitDotAux] at h
  | cons c rest ih =>
    intro acc b a h
    by_cases hc : c = '.'
    · subst hc
      simp only [revSplitDotAux, if_pos rfl] at h
      by_cases hr : rest = []
      · simp [hr] at h
      · rw [if_neg hr] at h
        have h' := Option.some.inj h
        refine ⟨[], ?_, ?_⟩
        · have ha : acc = a := congrArg Prod.snd h'
          rw [List.nil_append, ← ha]
        · have hb : rest.reverse = b := congrArg Prod.fst h'
          simp only [List.reverse_nil, List.nil_append]
          rw [← hb]
          simp
    · simp only [revSplitDotAux, if_neg hc] at h
      obtain ⟨a0, ha, hl⟩ := ih (c :: acc) b a h
      refine ⟨a0 ++ [c], ?_, ?_⟩
      · simp [ha]
      · simp [hl]

theorem lastDotSplit_struct (nm b a : List Char) (h : lastDotSplit nm = some (b, a)) :
    nm = b ++ '.' :: a := by
  unfold lastDotSplit at h
  by_cases hdd : nm = ['.', '.']
  · rw [if_pos hdd] at h
    exact Option.noConfusion h
  · rw [if_neg hdd] at h
    obtain ⟨a0, ha, hl⟩ := revSplitDotAux_struct nm.reverse [] b a h
    rw [List.append_nil] at ha
    subst ha
    have := congrArg List.reverse hl
    simpa using this

theorem derive_append (p : RPath) (e : List Char) (h : extensionOf p = some e) :
    deriveImportPath p = some ⟨p.dir, p.name ++ ".import".toList⟩ := by
  cases hs : lastDotSplit p.name with
  | none =>
    exfalso
    unfold extensionOf at h
    rw [hs] at h
    exact Option.noConfusion h
  | some pr =>
    rcases pr with ⟨b, a⟩
    have hae : a = e := by
      unfold extensionOf at h
      rw [hs] at h
      exact Option.some.inj h
    subst hae
    have hnm := lastDotSplit_struct p.name b a hs
    have hext : extensionOf p = some a := by
      unfold extensionOf
      rw [hs]
      rfl
    unfold deriveImportPath
    rw [hext]
    show some (withExtension p (a ++ ".import".toList)) = _
    unfold withExtension fileStem
    rw [hs]
    have hne : (a ++ ".import".toList) ≠ [] := by simp
    rw [if_neg hne]
    refine congrArg (fun nm => some (RPath.mk p.dir nm)) ?_
    rw [hnm]
    simp

theorem generate_noext (fs : Nat → RPath → Bool) (contents : RPath → List (List Char))
    (rng : Nat → Char) (files : List RPath) (f : RPath) (hf : f ∈ files)
    (he : extensionOf f = none) :
    generate fs contents rng files = .error .panicNoExtension := by
  have h1 : scanOnce (fs 0) files = .error () := scanOnce_error _ files ⟨f, hf, he⟩
  have h2 : scan_for_import_files fs files = .error () :=
    scanLoop_error_first fs files 0 0 h1 max_iters (by decide)
  simp [generate, h2]

theorem nodup_count_one : ∀ (l : List (List Char)), l.Nodup → ∀ a, a ∈ l → l.count a = 1 := by
  intro l
  induction l with
  | nil => intro _ a ha; simp at ha
  | cons x t ih =>
    intro hn a ha
    rw [List.nodup_cons] at hn
    rw [List.count_cons]
    rcases List.mem_cons.mp ha with h | h
    · subst h
      rw [List.count_eq_zero.mpr hn.1]
      simp
    · rw [ih hn.2 a h]
      have hax : a ≠ x := by
        rintro rfl
        exact hn.1 h
      simp [hax, Ne.symm hax]

/-! ### Claim theorems -/

/-- C1: the claim states that a located sidecar yielding both `resource_uid`
and `source_logical_path` but classifying to no role is dropped and the run
fails with the `IncompleteMapping` error.  The code instead panics: at
lib.rs:176 `property.unwrap()` is evaluated under the guard
`uid.is_some() && source_file.is_some()` with `property = None`.  This
theorem evaluates the embedded program on such a run (candidate `chaos.png`,
sidecar present with both fields, no role): the premises of the claim hold,
yet the run ends in the role-unwrap panic, which is not the
`IncompleteMapping` error. -/
theorem C1_role_none_panics :
    extractFields [("uid=\"uid://abc123\"".toList), ("source_file=\"res://chaos.png\"".toList)]
      = (some ("abc123".toList), some ("res://chaos.png".toList)) ∧
    get_godot_property ("chaos.png.import".toList) = none ∧
    generate (fun _ _ => true)
      (fun _ => [("uid=\"uid://abc123\"".toList), ("source_file=\"res://chaos.png\"".toList)])
      (fun _ => 'a') [⟨[], "chaos.png".toList⟩] = .error .panicNoProperty ∧
    (Except.error RunError.panicNoProperty : Except RunError (List Char)) ≠
      .error .incompleteMapping :=
  ⟨by decide, by decide, by decide, by decide⟩

/-- C2 counterexample: a run in which one located sidecar (for `a.png`) fails
to yield `resource_uid` while another located sidecar (for `chaos.png`)
yields both fields but no role.  The premise of the claim holds, yet
`generate` ends in the role-unwrap panic rather than the `IncompleteMapping`
error the claim promises for every such run. -/
theorem C2_counterexample :
    scan_for_import_files (fun _ _ => true) [⟨[], "a.png".toList⟩, ⟨[], "chaos.png".toList⟩]
      = .ok ⟨[⟨[], "a.png.import".toList⟩, ⟨[], "chaos.png.import".toList⟩], 1, 0⟩ ∧
    (extractFields [("source_file=\"res://a.png\"".toList)]).1 = none ∧
    generate (fun _ _ => true)
      (fun p => if p.name = ("a.png.import".toList) then [("source_file=\"res://a.png\"".toList)]
        else [("uid=\"uid://abc123\"".toList), ("source_file=\"res://chaos.png\"".toList)])
      (fun _ => 'a') [⟨[], "a.png".toList⟩, ⟨[], "chaos.png".toList⟩]
      = .error .panicNoProperty ∧
    (Except.error RunError.panicNoProperty : Except RunError (List Char)) ≠
      .error .incompleteMapping :=
  ⟨by decide, by decide, by decide, by decide⟩

/-- C2 (amended): in every run in which the Locator found every sidecar,
every located sidecar that yields both fields also classifies to a role (the
condition under which the compiler does not panic, see C1), and some located
sidecar fails to yield `resource_uid` or `source_logical_path`: that sidecar
is silently dropped (the compiler still returns normally, with no per-file
error), the mapping list is strictly shorter than the list of sidecars
found, and `generate` fails with the `IncompleteMapping` error instead of
returning a document. -/
theorem C2_amended_incomplete_mapping (fs : Nat → RPath → Bool)
    (contents : RPath → List (List Char)) (rng : Nat → Char) (files : List RPath)
    (r : ScanResult)
    (hscan : scan_for_import_files fs files = .ok r)
    (hall : r.found.length = files.length)
    (hmiss : ∃ f ∈ r.found,
      (extractFields (contents f)).1 = none ∨ (extractFields (contents f)).2 = none)
    (hrole : ∀ f ∈ r.found, yieldsBoth contents f = true → (get_godot_property f.name).isSome) :
    ∃ m pos', compile_material_mapping contents rng r.found 0 = .ok (m, pos') ∧
      m.length < r.found.length ∧
      generate fs contents rng files = .error .incompleteMapping := by
  obtain ⟨m, pos', hok, hlen⟩ := compile_aux_ok contents rng r.found [] 0 hrole
  obtain ⟨f, hfmem, hfm⟩ := hmiss
  have hfnot : yieldsBoth contents f ≠ true := by
    unfold yieldsBoth
    rcases hfm with h | h <;> simp [h]
  have hcount : r.found.countP (yieldsBoth contents) < r.found.length := by
    rcases Nat.lt_or_ge (r.found.countP (yieldsBoth contents)) r.found.length with h | h
    · exact h
    · exfalso
      have heq : r.found.countP (yieldsBoth contents) = r.found.length :=
        Nat.le_antisymm (List.countP_le_length _) h
      exact hfnot (List.countP_eq_length.mp heq f hfmem)
  have hlt : m.length < r.found.length := by
    rw [hlen]
    simpa using hcount
  refine ⟨m, pos', hok, hlt, ?_⟩
  have hnlt : ¬ r.found.length < files.length := by omega
  have hne : m.length ≠ r.found.length := by omega
  simp [generate, hscan, hnlt, compile_material_mapping] at hok ⊢
  rw [show compile_aux contents rng r.found [] 0 = Except.ok (m, pos') from hok]
  simp [hne]

/-- C2 witness: a concrete run (single candidate `a.png`, sidecar present but
missing the uid line) on which the amended claim applies and `generate`
indeed fails with `IncompleteMapping`. -/
theorem C2_amended_witness :
    generate (fun _ _ => true) (fun _ => [("source_file=\"res://a.png\"".toList)])
      (fun _ => 'a') [⟨[], "a.png".toList⟩] = .error .incompleteMapping := by
  obtain ⟨m, p, h1, h2, h3⟩ := C2_amended_incomplete_mapping (fun _ _ => true)
    (fun _ => [("source_file=\"res://a.png\"".toList)]) (fun _ => 'a')
    [⟨[], "a.png".toList⟩] ⟨[⟨[], "a.png.import".toList⟩], 1, 0⟩
    (by decide) (by decide) (by decide) (by decide)
  exact h3

/-- C3: whenever the poll loop returns with fewer sidecars found than
candidates, `generate` fails with the `IncompleteImportSet` error, for every
possible sidecar content function and RNG — so no sidecar parsing can
influence the outcome and no document text, partial or otherwise, is
produced. -/
theorem C3_incomplete_import_set (fs : Nat → RPath → Bool) (files : List RPath)
    (r : ScanResult)
    (hscan : scan_for_import_files fs files = .ok r)
    (hlt : r.found.length < files.length) :
    ∀ (contents : RPath → List (List Char)) (rng : Nat → Char),
      generate fs contents rng files = .error .incompleteImportSet := by
  intro contents rng
  simp [generate, hscan, hlt]

/-- C3 witness: one candidate whose sidecar never appears; after the
100-iteration budget the run fails with `IncompleteImportSet`. -/
theorem C3_witness :
    generate (fun _ _ => false) (fun _ => []) (fun _ => 'a')
      [⟨[], "a.png".toList⟩] = .error .incompleteImportSet :=
  C3_incomplete_import_set (fun _ _ => false) [⟨[], "a.png".toList⟩] ⟨[], 100, 100⟩
    (by decide) (by decide) (fun _ => []) (fun _ => 'a')

/-- C4: the Role Classifier is total and equals the reference definition (the
ordered first-match rule list of the spec); a filename containing both
`albedo` and `normal` classifies as Albedo; `wood_ao.png` classifies as
AmbientOcclusion; `chaos.png` (containing `ao` but not `_ao`) classifies to
no role. -/
theorem C4_role_classifier :
    (∀ nm : List Char, get_godot_property nm = role_classifier_spec nm) ∧
    (∀ nm : List Char, containsL nm ("albedo".toList) = true →
      containsL nm ("normal".toList) = true →
      get_godot_property nm = some GodotMaterialProperty.AlbedoTexture) ∧
    get_godot_property ("wood_ao.png".toList) = some GodotMaterialProperty.AmbientOcclusionTexture ∧
    get_godot_property ("chaos.png".toList) = none := by
  refine ⟨classifier_eq, ?_, by decide, by decide⟩
  intro nm h1 _
  unfold get_godot_property
  rw [h1]
  rfl

/-- C4 witness: the priority conjunct applied to a concrete filename that
contains both `albedo` and `normal`. -/
theorem C4_witness :
    get_godot_property ("albedo_normal.png".toList) = some GodotMaterialProperty.AlbedoTexture :=
  C4_role_classifier.2.1 ("albedo_normal.png".toList) (by decide) (by decide)

/-- C5: the Metadata Extractor scans every line independently and returns,
for each of the two fields, the capture of the last matching line (later
matches overwrite earlier ones); and every captured `source_file` value
begins with `res://` — a line whose value does not begin with that prefix
contributes nothing. -/
theorem C5_extractor_last_match :
    (∀ ls : List (List Char),
      extractFields ls = ((ls.filterMap matchUid).getLast?, (ls.filterMap matchSf).getLast?)) ∧
    (∀ line v : List Char, matchSf line = some v → startsWithL ("res://".toList) v = true) :=
  ⟨extractFields_eq, matchSf_res⟩

/-- C5 witness: the prefix conjunct applied to a concrete matching line. -/
theorem C5_witness :
    startsWithL ("res://".toList) ("res://wall_albedo.png".toList) = true :=
  C5_extractor_last_match.2 ("source_file=\"res://wall_albedo.png\"".toList)
    ("res://wall_albedo.png".toList) (by decide)

/-- C6: for every mapping sequence the generated document is exactly the
line sequence of the spec joined by newlines — header line with a 12-character
token, blank line, one ext_resource line per record in order, blank line,
the resource tag, then the role-specific property lines of each record in
order (each referencing the short_uid of its record). -/
theorem C6_document_format (rng : Nat → Char) (pos : Nat)
    (mapping : List GodotMaterialMapping) :
    generate_material rng pos mapping
      = joinNL (doc_lines_spec ((generate_godot_uid rng pos 12).1) mapping) ∧
    ((generate_godot_uid rng pos 12).1).length = 12 :=
  ⟨generate_material_eq_spec rng pos mapping, generate_godot_uid_len rng pos 12⟩

/-- C7: in every successfully compiled mapping list the record at 0-based
index `i` has `short_uid` of the form decimal `i + 1`, underscore, 5-char
token; hence the short_uids are pairwise distinct and the short_uid of every
record — the id every `ExtResource` reference of the resource block names —
occurs exactly once among the ids of the ext_resource lines. -/
theorem C7_short_ref_unique (contents : RPath → List (List Char)) (rng : Nat → Char)
    (files : List RPath) (m : List GodotMaterialMapping) (pos' : Nat)
    (hok : compile_material_mapping contents rng files 0 = .ok (m, pos')) :
    (∀ i (h : i < m.length), ∃ t : List Char, t.length = 5 ∧
      (m.get ⟨i, h⟩).short_uid = natDigits (i + 1) ++ '_' :: t) ∧
    (m.map GodotMaterialMapping.short_uid).Nodup ∧
    (∀ rec ∈ m, (m.map GodotMaterialMapping.short_uid).count rec.short_uid = 1) := by
  have hshape : shortUidShape m :=
    compile_aux_shape contents rng files [] 0 m pos' (by intro i h; simp at h) hok
  refine ⟨hshape, shape_nodup m hshape, ?_⟩
  intro rec hrec
  exact nodup_count_one _ (shape_nodup m hshape) _ (List.mem_map_of_mem _ hrec)

/-- C7 witness: a concrete one-record compilation whose short_uid list the
theorem shows to be duplicate-free. -/
theorem C7_witness :
    (([⟨("abc123".toList), ('1' :: '_' :: "aaaaa".toList), ("res://wall_albedo.png".toList),
        GodotMaterialProperty.AlbedoTexture⟩] : List GodotMaterialMapping).map
      GodotMaterialMapping.short_uid).Nodup :=
  (C7_short_ref_unique
    (fun _ => [("uid=\"uid://abc123\"".toList), ("source_file=\"res://wall_albedo.png\"".toList)])
    (fun _ => 'a') [⟨[], "wall_albedo.png.import".toList⟩]
    [⟨("abc123".toList), ('1' :: '_' :: "aaaaa".toList), ("res://wall_albedo.png".toList),
      GodotMaterialProperty.AlbedoTexture⟩] 5 (by decide)).2.1

/-- C8: for every candidate list whose members all have extensions and every
time-varying filesystem, the poll loop terminates with at most 100
iterations; no iteration before the final one saw a found count equal to the
candidate count, and the loop stopped either because the final iteration did
or because the 100-iteration cap was reached. -/
theorem C8_scan_terminates (fs : Nat → RPath → Bool) (files : List RPath)
    (hext : ∀ f ∈ files, (extensionOf f).isSome) :
    ∃ r : ScanResult, scan_for_import_files fs files = .ok r ∧
      1 ≤ r.iterations ∧ r.iterations ≤ max_iters ∧
      (∀ j, j + 1 < r.iterations → foundAt fs files j ≠ files.length) ∧
      (foundAt fs files (r.iterations - 1) = files.length ∨ r.iterations = max_iters) ∧
      r.found.length = foundAt fs files (r.iterations - 1) := by
  obtain ⟨r, hr, h1, h2, h3, h4, h5⟩ := scanLoop_spec fs files hext max_iters 0 0 (by decide)
  refine ⟨r, hr, h1, ?_, ?_, ?_, h5⟩
  · simpa using h2
  · intro j hj
    exact h3 j (Nat.zero_le j) hj
  · simpa using h4

/-- C8 witness: a sidecar that appears from iteration 2 on; the loop exits
after 3 iterations, within the 100-iteration budget. -/
theorem C8_witness :
    ∃ r : ScanResult,
      scan_for_import_files (fun i _ => 2 ≤ i) [⟨[], "a.png".toList⟩] = .ok r ∧
      r.iterations ≤ max_iters := by
  obtain ⟨r, hr, _, h2, _⟩ :=
    C8_scan_terminates (fun i _ => 2 ≤ i) [⟨[], "a.png".toList⟩] (by decide)
  exact ⟨r, hr, h2⟩

/-- C9: for a candidate with an extension the derived sidecar path is the
candidate path with the literal `.import` appended after the existing
extension; a candidate without an extension makes the whole run fail (the
extension-unwrap panic); and when every candidate has an extension the
Locator never reaches that failure branch. -/
theorem C9_sidecar_derivation :
    (∀ (p : RPath) (e : List Char), extensionOf p = some e →
      deriveImportPath p = some ⟨p.dir, p.name ++ ".import".toList⟩) ∧
    (∀ (fs : Nat → RPath → Bool) (contents : RPath → List (List Char)) (rng : Nat → Char)
        (files : List RPath) (f : RPath), f ∈ files → extensionOf f = none →
        generate fs contents rng files = .error .panicNoExtension) ∧
    (∀ (fs : Nat → RPath → Bool) (files : List RPath),
        (∀ f ∈ files, (extensionOf f).isSome) →
        ∃ r : ScanResult, scan_for_import_files fs files = .ok r) := by
  refine ⟨derive_append, generate_noext, ?_⟩
  intro fs files hext
  obtain ⟨r, hr, _⟩ := scanLoop_spec fs files hext max_iters 0 0 (by decide)
  exact ⟨r, hr⟩

/-- C9 witness: the example of the spec, `texture.png` to
`texture.png.import`. -/
theorem C9_witness :
    deriveImportPath ⟨[], "texture.png".toList⟩ = some ⟨[], "texture.png.import".toList⟩ :=
  C9_sidecar_derivation.1 ⟨[], "texture.png".toList⟩ ("png".toList) (by decide)

/-- C10 counterexample: for the empty candidate list the code emits the
header line followed by TWO blank lines and the resource tag (one blank line
terminates the header chunk, lib.rs:190, and the resource block contributes
a further leading newline, lib.rs:213), not the single blank line the claim
states. -/
theorem C10_counterexample :
    generate (fun _ _ => false) (fun _ => []) (fun _ => 'a') [] =
      .ok (joinNL [header_line_spec ("aaaaaaaaaaaa".toList), [], [], ("[resource]".toList)]) ∧
    joinNL [header_line_spec ("aaaaaaaaaaaa".toList), [], [], ("[resource]".toList)] ≠
      joinNL [header_line_spec ("aaaaaaaaaaaa".toList), [], ("[resource]".toList)] :=
  ⟨by decide, by decide⟩

/-- C10 (amended): for the empty candidate list `generate` succeeds with no
polling delay (the first iteration finds zero of zero sidecars and exits at
once, with zero sleeps), and the document is exactly the header line, two
blank lines, and the resource tag, with no ext_resource lines and no
property lines. -/
theorem C10_empty_run (fs : Nat → RPath → Bool) (contents : RPath → List (List Char))
    (rng : Nat → Char) :
    scan_for_import_files fs ([] : List RPath) = .ok ⟨[], 1, 0⟩ ∧
    generate fs contents rng [] =
      .ok (joinNL [header_line_spec ((generate_godot_uid rng 0 12).1), [], [],
        ("[resource]".toList)]) := by
  refine ⟨rfl, ?_⟩
  show Except.ok (generate_material rng 0 []) = _
  rw [generate_material_eq_spec rng 0 []]
  rfl

end GodotMat
